import Mathlib

/-!
Verification development for the py2neo entity model (`py2neo/graph.py`).

The definitions below are shallow embeddings of the corresponding Python
source: `Subgraph` and its set algebra, the `traverse` composition
generator, `Node.hydrate` / `Relationship.hydrate` with their identity
caches, the stale-property pull machinery, and the casting layer
(`cast`, `cast_node`, `cast_relationship`) together with
`Relationship.__init__` / `PropertyRelationship.__init__`.
-/

namespace Py2neo

/-- Property scalar values stored in a property container. -/
inductive PVal where
  | pint (n : Int)
  | pstr (s : String)
  | pbool (b : Bool)
  deriving DecidableEq

/-- A Python dict of properties, modelled as an association list
(first binding for a key wins on lookup; real dicts have unique keys). -/
abbrev Props := List (String × PVal)

/-- Dictionary lookup `d.get(k)`. -/
def propsGet : Props → String → Option PVal
  | [], _ => none
  | kv :: rest, k => if kv.1 = k then some kv.2 else propsGet rest k

/-- Dictionary assignment `d[k] = v`: replace the binding if the key is
present, otherwise append it. -/
def setKey : Props → String × PVal → Props
  | [], kv => [kv]
  | kv0 :: rest, kv => if kv0.1 = kv.1 then kv :: rest else kv0 :: setKey rest kv

/-- Dictionary update `d.update(e)`: fold the entries of `e` into `d`,
entries of `e` winning on key conflict. -/
def propsUpdate (d e : Props) : Props := e.foldl setKey d

/-- Keys of a property dict. -/
def propsKeys (d : Props) : List String := d.map Prod.fst

/- ----------------------------------------------------------------- -/
/- Subgraph algebra (`Subgraph` in graph.py)                          -/
/- ----------------------------------------------------------------- -/

namespace SG

/-- A relationship as a member of a subgraph: an identity tag together
with its two endpoint nodes (nodes are identities, i.e. naturals). -/
structure Rel where
  rid : Nat
  src : Nat
  dst : Nat
  deriving DecidableEq

/-- Endpoint nodes of a relationship (`r.nodes()` for a length-1 walk). -/
def Rel.ends (r : Rel) : Finset Nat := {r.src, r.dst}

/-- The `Subgraph` value: a frozenset of nodes and one of relationships. -/
structure Subgraph where
  nodes : Finset Nat
  relationships : Finset Rel
  deriving DecidableEq

/-- All endpoint nodes of a relationship set
(`chain(*(r.nodes() for r in relationships))`). -/
def relEndpoints (rs : Finset Rel) : Finset Nat := rs.biUnion Rel.ends

/-- Constructor `Subgraph.__init__`: store the relationship set and the
node set augmented with every endpoint of every relationship
(`self._nodes |= frozenset(chain(*(r.nodes() for r in self._relationships)))`). -/
def mkSubgraph (ns : Finset Nat) (rs : Finset Rel) : Subgraph :=
  ⟨ns ∪ relEndpoints rs, rs⟩

/-- Operator `Subgraph.__or__`. -/
def union (a b : Subgraph) : Subgraph :=
  mkSubgraph (a.nodes ∪ b.nodes) (a.relationships ∪ b.relationships)

/-- Operator `Subgraph.__and__`. -/
def inter (a b : Subgraph) : Subgraph :=
  mkSubgraph (a.nodes ∩ b.nodes) (a.relationships ∩ b.relationships)

/-- Operator `Subgraph.__sub__`:
`r = rels(self) - rels(other)`;
`n = (nodes(self) - nodes(other)) | union(nodes(rel) for rel in r)`. -/
def diff (a b : Subgraph) : Subgraph :=
  mkSubgraph ((a.nodes \ b.nodes) ∪ relEndpoints (a.relationships \ b.relationships))
    (a.relationships \ b.relationships)

/-- Operator `Subgraph.__xor__` (symmetric difference):
`r = rels(self) ^ rels(other)`;
`n = (nodes(self) ^ nodes(other)) | union(nodes(rel) for rel in r)`. -/
def sdiff (a b : Subgraph) : Subgraph :=
  mkSubgraph (((a.nodes \ b.nodes) ∪ (b.nodes \ a.nodes)) ∪
      relEndpoints ((a.relationships \ b.relationships) ∪ (b.relationships \ a.relationships)))
    ((a.relationships \ b.relationships) ∪ (b.relationships \ a.relationships))

/-- Method `Subgraph.order()`: number of nodes. -/
def order (s : Subgraph) : Nat := s.nodes.card

/-- Method `Subgraph.size()`: number of relationships. -/
def size (s : Subgraph) : Nat := s.relationships.card

/-- The closure invariant: every endpoint of every member relationship is
a member node. -/
def Closed (s : Subgraph) : Prop :=
  ∀ r ∈ s.relationships, r.src ∈ s.nodes ∧ r.dst ∈ s.nodes

instance (s : Subgraph) : Decidable (Closed s) := by
  unfold Closed
  infer_instance

/-- Concrete example: a node collection. -/
def sgEx0ns : Finset Nat := {5}

/-- Concrete example: a relationship collection. -/
def sgEx0rs : Finset Rel := {⟨0, 1, 2⟩}

/-- Concrete example: a subgraph built from one node and one relationship. -/
def sgEx0 : Subgraph := mkSubgraph sgEx0ns sgEx0rs

/-- Concrete example: a left operand with an isolated node `7`. -/
def sgEx1 : Subgraph := mkSubgraph {7, 1} ∅

/-- Concrete example: a right operand containing node `1` only. -/
def sgEx2 : Subgraph := mkSubgraph {1} ∅

/-- Concrete example: a closed subgraph with one relationship. -/
def sgEx3 : Subgraph := mkSubgraph {0, 1} {⟨0, 0, 1⟩}

/-- Concrete example: a closed subgraph with two nodes. -/
def sgEx4 : Subgraph := mkSubgraph {1, 2} ∅

end SG

/- ----------------------------------------------------------------- -/
/- Traversal composition (`traverse` in graph.py)                     -/
/- ----------------------------------------------------------------- -/

namespace TR

/-- An element of an alternating walk sequence: a node identity or a
relationship identity. -/
inductive GEnt where
  | nd (v : Nat)
  | rl (r : Nat)
  deriving DecidableEq

/-- A traversable object, as consumed by `traverse`: a walk given by its
first node and its list of (relationship, next node) steps.  This is the
data of a `TraversableSubgraph`: the alternating sequence is
`head, r1, n1, r2, n2, ...` and is always of odd length. -/
structure Walk where
  head : Nat
  steps : List (Nat × Nat)
  deriving DecidableEq

/-- Method `traverse()` of a traversable: its full alternating sequence. -/
def Walk.seq (w : Walk) : List GEnt :=
  .nd w.head :: w.steps.flatMap (fun s => [.rl s.1, .nd s.2])

/-- Method `start_node()`: the first node of the sequence. -/
def Walk.startNode (w : Walk) : Nat := w.head

/-- Method `end_node()`: the last node of the sequence. -/
def Walk.endNode (w : Walk) : Nat := (w.steps.map Prod.snd).getLastD w.head

/-- Failure raised by `traverse`. -/
inductive TrError where
  | cannotAppend
  deriving DecidableEq

/-- The loop of `traverse` over the objects after the first: `acc` is the
sequence yielded so far and `cursor` the current end node.  For each
object: if the cursor equals its start node, yield its sequence minus the
first element and move the cursor to its end node; else if the cursor
equals its end node, yield its reversed sequence minus the first element
and move the cursor to its start node; else raise the composition error. -/
def traverseFrom (acc : List GEnt) (cursor : Nat) : List Walk → Except TrError (List GEnt)
  | [] => .ok acc
  | w :: ws =>
    if cursor = w.startNode then
      traverseFrom (acc ++ w.seq.drop 1) w.endNode ws
    else if cursor = w.endNode then
      traverseFrom (acc ++ w.seq.reverse.drop 1) w.startNode ws
    else
      .error .cannotAppend

/-- Function `traverse(*traversables)`: yield the first object's sequence
and then walk the rest with the cursor starting at the first object's end
node; an empty argument list yields the empty sequence. -/
def traverse : List Walk → Except TrError (List GEnt)
  | [] => .ok []
  | w :: ws => traverseFrom w.seq w.endNode ws

/-- Contiguity of a list of traversables relative to a cursor node: each
object in turn must present its start node or its end node at the cursor. -/
def contiguousFrom (cursor : Nat) : List Walk → Bool
  | [] => true
  | w :: ws =>
    if cursor = w.startNode then contiguousFrom w.endNode ws
    else if cursor = w.endNode then contiguousFrom w.startNode ws
    else false

end TR

/- ----------------------------------------------------------------- -/
/- Hydration and the identity caches                                  -/
/- (`Node.hydrate`, `Relationship.hydrate` in graph.py)               -/
/- ----------------------------------------------------------------- -/

namespace HY

/-- The state of a `Node` instance: its label set, its property dict, its
two staleness flags and, when bound, the remote reference string of its
`Resource`. -/
structure NodeObj where
  labels : List String
  props : Props
  staleLabels : Bool
  staleProps : Bool
  bound : Option String
  deriving DecidableEq

/-- The state of a `Relationship` instance: its type, property dict,
staleness flag for properties, optional binding, and the heap identities
of its start and end node instances. -/
structure RelObj where
  rtype : Option String
  props : Props
  staleProps : Bool
  bound : Option String
  startId : Nat
  endId : Nat
  deriving DecidableEq

/-- A cache mapping a remote reference string to an instance identity
(`ThreadLocalWeakValueDictionary`), modelled as an association list. -/
abbrev Cache := List (String × Nat)

/-- Cache lookup. -/
def cacheGet : Cache → String → Option Nat
  | [], _ => none
  | kv :: rest, k => if kv.1 = k then some kv.2 else cacheGet rest k

/-- Cache assignment `cache[self] = inst`. -/
def cacheSet : Cache → String → Nat → Cache
  | [], k, i => [(k, i)]
  | kv0 :: rest, k, i => if kv0.1 = k then (k, i) :: rest else kv0 :: cacheSet rest k i

/-- The per-context store of `Node` instances: a heap of instances
(identity = index, allocation = append) and the class-level identity
cache.  A temporary instance that is created and immediately discarded
without ever being cached or returned is not modelled as an allocation. -/
structure NodeCtx where
  heap : List NodeObj
  cache : Cache
  deriving DecidableEq

/-- In-place field update of the node instance at identity `i`. -/
def updNode (ctx : NodeCtx) (i : Nat) (f : NodeObj → NodeObj) : NodeCtx :=
  match ctx.heap[i]? with
  | some o => { ctx with heap := ctx.heap.set i (f o) }
  | none => ctx

/-- The argument dictionary of `Node.hydrate`: the reference string
`data["self"]`, the optional property payload `data["data"]`, and the
optional label list `data["metadata"]["labels"]`. -/
structure NodeData where
  ref : String
  payload : Option Props
  metaLabels : Option (List String)

/-- The instance-selection step of `Node.hydrate`: with `inst` given, use
it; otherwise `cache.setdefault(self, new_inst)` either returns the
already-cached instance for the reference or allocates a new instance
with both field groups stale and inserts it. -/
def allocNode (ref : String) (inst : Option Nat) (ctx : NodeCtx) : Nat × NodeCtx :=
  match inst with
  | some i => (i, ctx)
  | none =>
    match cacheGet ctx.cache ref with
    | some j => (j, ctx)
    | none =>
      (ctx.heap.length,
       { heap := ctx.heap ++ [(⟨[], [], true, true, none⟩ : NodeObj)],
         cache := cacheSet ctx.cache ref ctx.heap.length })

/-- The `cls.cache[self] = inst` step. -/
def recacheNode (ref : String) (i : Nat) (ctx : NodeCtx) : NodeCtx :=
  { ctx with cache := cacheSet ctx.cache ref i }

/-- The `inst._bind(self, data)` step. -/
def bindNode (ref : String) (i : Nat) (ctx : NodeCtx) : NodeCtx :=
  updNode ctx i (fun o => { o with bound := some ref })

/-- The property-payload step: when `"data"` is present, un-stale the
property group, clear the dict and overwrite it with the payload. -/
def payloadNode (payload : Option Props) (i : Nat) (ctx : NodeCtx) : NodeCtx :=
  match payload with
  | some p => updNode ctx i (fun o => { o with staleProps := false, props := p })
  | none => ctx

/-- The label-metadata step: when `"metadata"` is present, un-stale the
label group, clear the label set and overwrite it. -/
def metaNode (metaLabels : Option (List String)) (i : Nat) (ctx : NodeCtx) : NodeCtx :=
  match metaLabels with
  | some ls => updNode ctx i (fun o => { o with staleLabels := false, labels := ls })
  | none => ctx

/-- Classmethod `Node.hydrate(data, inst=None)`.  With `inst` absent, a new
instance with both field groups stale is allocated and `cache.setdefault`
either returns the already-cached instance for `data["self"]` or inserts
the new one.  The chosen instance is then (re)cached, bound to the
reference, and its property and label groups are overwritten in place and
marked fresh for each part of the payload that is present. -/
def nodeHydrate (d : NodeData) (inst : Option Nat) (ctx : NodeCtx) : Nat × NodeCtx :=
  let (i, ctx) := allocNode d.ref inst ctx
  (i, metaNode d.metaLabels i (payloadNode d.payload i (bindNode d.ref i
    (recacheNode d.ref i ctx))))

/-- The per-context store of `Relationship` instances, together with the
node store its endpoint hydrations act on. -/
structure RelCtx where
  nodes : NodeCtx
  heap : List RelObj
  cache : Cache
  deriving DecidableEq

/-- In-place field update of the relationship instance at identity `i`. -/
def updRel (ctx : RelCtx) (i : Nat) (f : RelObj → RelObj) : RelCtx :=
  match ctx.heap[i]? with
  | some o => { ctx with heap := ctx.heap.set i (f o) }
  | none => ctx

/-- The argument dictionary of `Relationship.hydrate`: `data["self"]`,
`data["start"]`, `data["end"]`, the optional `data["type"]` and the
optional property payload `data["data"]`. -/
structure RelData where
  ref : String
  start : String
  rend : String
  rtype : Option String
  payload : Option Props

/-- The instance-selection step of `Relationship.hydrate` with `inst`
absent: both endpoint references are hydrated as nodes (side effects on
the node store kept), and `cache.setdefault(self, new_inst)` either
returns the already-cached instance for the reference, leaving its fields
as they were, or inserts a newly built instance carrying the payload's
type and properties and the hydrated endpoint identities. -/
def allocRel (d : RelData) (ctx : RelCtx) : Nat × RelCtx :=
  let (sId, nctx) := nodeHydrate ⟨d.start, none, none⟩ none ctx.nodes
  let (eId, nctx2) := nodeHydrate ⟨d.rend, none, none⟩ none nctx
  let ctx2 := { ctx with nodes := nctx2 }
  match cacheGet ctx2.cache d.ref with
  | some j => (j, ctx2)
  | none =>
    (ctx2.heap.length,
     { ctx2 with
       heap := ctx2.heap ++ [(⟨d.rtype, d.payload.getD [], false, none, sId, eId⟩ : RelObj)],
       cache := cacheSet ctx2.cache d.ref ctx2.heap.length })

/-- The in-place overwrite path of `Relationship.hydrate` with `inst`
present: the endpoints are re-hydrated onto the instance's own start and
end nodes, the type is overwritten, and the properties are overwritten
from the payload (or marked stale when no payload is given). -/
def overwriteRel (d : RelData) (i : Nat) (ctx : RelCtx) : RelCtx :=
  let sId := ((ctx.heap[i]?).map RelObj.startId).getD 0
  let eId := ((ctx.heap[i]?).map RelObj.endId).getD 0
  let (_, nctx) := nodeHydrate ⟨d.start, none, none⟩ (some sId) ctx.nodes
  let (_, nctx2) := nodeHydrate ⟨d.rend, none, none⟩ (some eId) nctx
  let ctx2 := { ctx with nodes := nctx2 }
  let ctx3 := updRel ctx2 i (fun o => { o with rtype := d.rtype })
  match d.payload with
  | some p => updRel ctx3 i (fun o => { o with props := p })
  | none => updRel ctx3 i (fun o => { o with staleProps := true })

/-- The closing `cls.cache[self] = inst; inst._bind(self, data)` steps of
`Relationship.hydrate`. -/
def finishRel (ref : String) (i : Nat) (ctx : RelCtx) : RelCtx :=
  updRel { ctx with cache := cacheSet ctx.cache ref i } i
    (fun o => { o with bound := some ref })

/-- Classmethod `Relationship.hydrate(data, inst=None)`: select or build
the instance (with `inst` absent) or overwrite the given one in place
(with `inst` present), then re-cache and bind it. -/
def relHydrate (d : RelData) (inst : Option Nat) (ctx : RelCtx) : Nat × RelCtx :=
  match inst with
  | none =>
    let (i, ctx2) := allocRel d ctx
    (i, finishRel d.ref i ctx2)
  | some i => (i, finishRel d.ref i (overwriteRel d i ctx))

/-- Well-formedness of a node store: every cached identity is a live heap
index. -/
def NodeCtx.WF (ctx : NodeCtx) : Prop :=
  ∀ kv ∈ ctx.cache, kv.2 < ctx.heap.length

/-- Well-formedness of a relationship store: every cached identity is a
live heap index. -/
def RelCtx.WF (ctx : RelCtx) : Prop :=
  ∀ kv ∈ ctx.cache, kv.2 < ctx.heap.length

instance (ctx : NodeCtx) : Decidable ctx.WF := by
  unfold NodeCtx.WF
  infer_instance

instance (ctx : RelCtx) : Decidable ctx.WF := by
  unfold RelCtx.WF
  infer_instance

/-- Concrete example: an empty node store. -/
def exNodeCtx : NodeCtx := ⟨[], []⟩

/-- Concrete example: an empty relationship store. -/
def exRelCtx : RelCtx := ⟨⟨[], []⟩, [], []⟩

/-- Concrete example: node hydration data carrying only a reference. -/
def exNodeData1 : NodeData := ⟨"node/1", none, none⟩

/-- Concrete example: node hydration data with a property payload. -/
def exNodeData2 : NodeData := ⟨"node/1", some [("age", .pint 44)], none⟩

/-- Concrete example: relationship hydration data with payload `since = 1999`. -/
def exRelData1 : RelData := ⟨"rel/1", "node/1", "node/2", some "KNOWS",
  some [("since", .pint 1999)]⟩

/-- Concrete example: same reference as `exRelData1`, payload `since = 2020`. -/
def exRelData2 : RelData := ⟨"rel/1", "node/1", "node/2", some "KNOWS",
  some [("since", .pint 2020)]⟩

end HY

/- ----------------------------------------------------------------- -/
/- Stale-property access (`Node.__getitem__`, `Graph.pull`)           -/
/- ----------------------------------------------------------------- -/

namespace PL

open HY

/-- The world for the lazy-refresh state machine: one bound node, the
remote authority's current data for it, and a count of refresh requests
issued so far. -/
structure PullWorld where
  node : NodeObj
  remoteProps : Props
  remoteLabels : List String
  pullRequests : Nat
  deriving DecidableEq

/-- Method `Graph.pull` applied to a single `Node` entity.  The source
(graph.py lines 541-566) groups the pulled entity's nodes and
relationships and issues one query per node and one per relationship; for
a `Node`, whose walk is the single node itself, that is exactly one
request, scoped to the node's own id.  Modelled from the spec: the cursor
hydration that completes the pull lives in `py2neo.cypher`, which is not
under src; per the spec it overwrites the entity's property and label
groups with the remote data and both groups become fresh. -/
def graphPullNode (w : PullWorld) : PullWorld :=
  { w with
    node := { w.node with
              props := w.remoteProps, labels := w.remoteLabels,
              staleProps := false, staleLabels := false },
    pullRequests := w.pullRequests + 1 }

/-- Method `Node.__getitem__`: if the node is bound and its property group
is stale, synchronously pull the node first; then read the property from
the local dict. -/
def nodeGetItem (w : PullWorld) (k : String) : Option PVal × PullWorld :=
  if w.node.bound.isSome && w.node.staleProps then
    let w := graphPullNode w
    (propsGet w.node.props k, w)
  else
    (propsGet w.node.props k, w)

/-- Concrete example: a bound node whose property group is stale. -/
def exWorld : PullWorld :=
  ⟨⟨[], [], false, true, some "node/1"⟩, [("name", .pstr "Alice")], ["Person"], 0⟩

end PL

/- ----------------------------------------------------------------- -/
/- Casting layer (`cast`, `cast_node`, `cast_relationship`) and       -/
/- relationship construction (`Relationship.__init__`,                -/
/- `PropertyRelationship.__init__`)                                   -/
/- ----------------------------------------------------------------- -/

namespace CA

/-- Python values as they reach the casting layer: `None`, existing
entities (a `Node` with its identity and property dict, a `NodeProxy`, an
unbound `Relationship` with its type and property dict, a `Path`), dicts,
strings, tuples, lists, integers, and anything else. -/
inductive PyVal where
  | vNone
  | vNode (id : Nat) (props : Props)
  | vNodeProxy (id : Nat)
  | vRel (rtype : Option String) (props : Props)
  | vPath
  | vDict (d : Props)
  | vStr (s : String)
  | vTuple (xs : List PyVal)
  | vList (xs : List PyVal)
  | vInt (n : Nat)
  | vOther

/-- Failures of the casting layer: `TypeError`, `ValueError`, an
out-of-range entity index, the `Hyperedges not supported` `TypeError`,
and the `Relationships must specify at least one endpoint` `TypeError`. -/
inductive CastErr where
  | typeErr
  | valueErr
  | indexErr
  | hyperedge
  | endpointMissing
  deriving DecidableEq

/-- Result of casting something to a node: `None` passed through, an
existing `Node` or `NodeProxy` passed through, or a freshly allocated
`Node` with the accumulated labels and properties. -/
inductive NodeRes where
  | rnone
  | existing (id : Nat) (props : Props)
  | proxy (id : Nat)
  | fresh (labels : List String) (props : Props)
  deriving DecidableEq

/-- Set insertion into a label set (`labels().add(x)`). -/
def labelAdd (ls : List String) (s : String) : List String :=
  if s ∈ ls then ls else ls ++ [s]

mutual

/-- The recursive `apply` worker inside `cast_node`: a dict contributes
properties, a collection (list or tuple) contributes each element
recursively, a string contributes a label, and anything else is a
`TypeError`.  (`is_collection`, from the absent `py2neo.util`, is modelled
from the spec: a nested sequence contributes each element recursively.) -/
def castNodeApply : PyVal → List String × Props → Except CastErr (List String × Props)
  | .vDict d, acc => .ok (acc.1, propsUpdate acc.2 d)
  | .vList xs, acc => castNodeApplyList xs acc
  | .vTuple xs, acc => castNodeApplyList xs acc
  | .vStr s, acc => .ok (labelAdd acc.1 s, acc.2)
  | _, _ => .error .typeErr

/-- Folds `apply` over the elements of a collection, in order. -/
def castNodeApplyList : List PyVal → List String × Props → Except CastErr (List String × Props)
  | [], acc => .ok acc
  | x :: xs, acc =>
    match castNodeApply x acc with
    | .ok acc1 => castNodeApplyList xs acc1
    | .error e => .error e

end

/-- Function `cast_node(obj)`: pass `None`, `Node` and `NodeProxy` values
through unchanged; otherwise allocate a fresh empty `Node` and run the
recursive `apply` worker on the input. -/
def cast_node : PyVal → Except CastErr NodeRes
  | .vNone => .ok .rnone
  | .vNode i ps => .ok (.existing i ps)
  | .vNodeProxy i => .ok (.proxy i)
  | v =>
    match castNodeApply v ([], []) with
    | .ok acc => .ok (.fresh acc.1 acc.2)
    | .error e => .error e

/-- A preprocessed positional argument of `Relationship.__init__`: either
a relationship-type string or the result of `cast_node` on the argument. -/
inductive RelPos where
  | tstr (s : String)
  | nd (n : NodeRes)
  deriving DecidableEq

/-- The value stored in `self._type`: `None`, a string, or (when a
non-string value is smuggled into the middle slot of a three-argument
construction) an arbitrary cast result. -/
inductive TypeSlot where
  | tnone
  | ts (s : String)
  | tval (n : NodeRes)
  deriving DecidableEq

/-- Type slot taken from `default_type()`. -/
def typeSlotOfDefault : Option String → TypeSlot
  | some s => .ts s
  | none => .tnone

/-- Type slot taken from a positional argument (`self._type = nodes[1]`). -/
def typeSlotOfPos : RelPos → TypeSlot
  | .tstr s => .ts s
  | .nd .rnone => .tnone
  | .nd n => .tval n

/-- Test `nodes[1] is None or isinstance(nodes[1], string)`. -/
def RelPos.isNoneOrString : RelPos → Bool
  | .tstr _ => true
  | .nd .rnone => true
  | _ => false

/-- The state of a constructed `PropertyRelationship`: its type slot, its
start and end endpoints (`nodes[0]` and `nodes[1]` after the arity
analysis), and its property dict.  Its traversable sequence is
`start, self, end`. -/
structure RelState where
  rtype : TypeSlot
  src : RelPos
  dst : RelPos
  props : Props
  deriving DecidableEq

/-- An element of the alternating sequence a `PropertyRelationship` passes
to `TraversableSubgraph.__init__`: an endpoint or the relationship itself. -/
inductive RelSeqElem where
  | endpoint (p : RelPos)
  | selfRel
  deriving DecidableEq

/-- The alternating sequence `TraversableSubgraph.__init__(nodes[0], self,
nodes[1])` stores for a constructed relationship. -/
def RelState.seq (r : RelState) : List RelSeqElem :=
  [.endpoint r.src, .selfRel, .endpoint r.dst]

mutual

/-- The even-indexed elements of a sequence (`sequence[0::2]`). -/
def evenIdx : List RelSeqElem → List RelSeqElem
  | [] => []
  | a :: rest => a :: oddIdx rest

/-- The odd-indexed elements of a sequence (`sequence[1::2]`). -/
def oddIdx : List RelSeqElem → List RelSeqElem
  | [] => []
  | _ :: rest => evenIdx rest

end

/-- Node sequence of a constructed relationship
(`self._node_sequence = sequence[0::2]`). -/
def RelState.nodeSeq (r : RelState) : List RelSeqElem := evenIdx r.seq

/-- Relationship sequence of a constructed relationship
(`self._relationship_sequence = sequence[1::2]`). -/
def RelState.relSeq (r : RelState) : List RelSeqElem := oddIdx r.seq

/-- Walk length of a constructed relationship
(`length() = len(self._relationship_sequence)`). -/
def RelState.length (r : RelState) : Nat := r.relSeq.length

/-- Constructor `PropertyRelationship.__init__(*nodes, **properties)`
after argument preprocessing: zero arguments is a `TypeError`, one
argument is a self-loop with the default type, two arguments are either
`(a, type)` (a self-loop) or `(a, b)` with the default type, three
arguments are `(a, type, b)` with the middle slot stored as the type
whatever it is, and four or more arguments raise the
`Hyperedges not supported` `TypeError`. -/
def propertyRelationshipInit (defType : Option String) (n : List RelPos) (p : Props) :
    Except CastErr RelState :=
  match n with
  | [] => .error .endpointMissing
  | [a] => .ok ⟨typeSlotOfDefault defType, a, a, p⟩
  | [a, b] =>
    if b.isNoneOrString then .ok ⟨typeSlotOfPos b, a, a, p⟩
    else .ok ⟨typeSlotOfDefault defType, a, b, p⟩
  | [a, b, c] => .ok ⟨typeSlotOfPos b, a, c, p⟩
  | _ => .error .hyperedge

/-- One iteration of the argument preprocessing loop of
`Relationship.__init__`: a string is kept as a type slot (contributing no
properties); a pair `(type, properties)` with a string first element
contributes its type and its properties; everything else goes through
`cast_node`. -/
def relPrepOne (v : PyVal) : Except CastErr (RelPos × Props) :=
  match v with
  | .vStr s => .ok (.tstr s, [])
  | .vTuple [.vStr t, .vDict d] => .ok (.tstr t, d)
  | .vTuple [.vStr _, _] => .error .typeErr
  | v =>
    match cast_node v with
    | .ok nr => .ok (.nd nr, [])
    | .error e => .error e

/-- Argument preprocessing loop of `Relationship.__init__`: each
positional argument appends one entry to `n` and merges any properties it
carries into `p`. -/
def relPrep : List PyVal → List RelPos × Props → Except CastErr (List RelPos × Props)
  | [], acc => .ok acc
  | v :: vs, acc =>
    match relPrepOne v with
    | .ok pd => relPrep vs (acc.1 ++ [pd.1], propsUpdate acc.2 pd.2)
    | .error e => .error e

/-- Constructor `Relationship.__init__(*nodes, **properties)`: preprocess
the positional arguments, merge the keyword properties over any
pair-supplied properties, and run the `PropertyRelationship` arity
analysis.  `defType` models `default_type()` (it is computed by
`relationship_case`, which lives in the absent `py2neo.util`). -/
def relationshipInit (defType : Option String) (args : List PyVal) (properties : Props) :
    Except CastErr RelState :=
  match relPrep args ([], []) with
  | .ok acc => propertyRelationshipInit defType acc.1 (propsUpdate acc.2 properties)
  | .error e => .error e

/-- The worker `get_type` inside `cast_relationship`: a string is itself
the type; an object with a `type` accessor (a `Relationship`) yields its
type; a pair with a string first element yields that string; anything
else is a `ValueError`. -/
def getType : PyVal → Except CastErr (Option String)
  | .vStr s => .ok (some s)
  | .vRel rt _ => .ok rt
  | .vTuple [.vStr t, _] => .ok (some t)
  | _ => .error .valueErr

/-- The worker `get_properties` inside `cast_relationship`: a string has
no properties; an object with a callable `type` accessor (a
`Relationship`) yields its property dict; an object with a `properties`
attribute (a `Node`) yields that; a pair with a string first element
yields its second element as a dict; anything else is a `ValueError`. -/
def getProperties : PyVal → Except CastErr Props
  | .vStr _ => .ok []
  | .vRel _ ps => .ok ps
  | .vNode _ ps => .ok ps
  | .vTuple [.vStr _, .vDict d] => .ok d
  | .vTuple [.vStr _, _] => .error .typeErr
  | _ => .error .valueErr

/-- Endpoint resolution: when a non-empty `entities` lookup is supplied,
an integer endpoint is replaced by the entity at that index
(`entities[start_node]`), failing with an index error when out of range. -/
def resolveEnd (entities : Option (List PyVal)) (v : PyVal) : Except CastErr PyVal :=
  match entities with
  | none => .ok v
  | some [] => .ok v
  | some es =>
    match v with
    | .vInt n =>
      match es[n]? with
      | some e => .ok e
      | none => .error .indexErr
    | v => .ok v

/-- Conversion of a resolved type back into the positional argument passed
to `Relationship` (`get_type(t)` can be a string or `None`). -/
def pyOfOptStr : Option String → PyVal
  | some s => .vStr s
  | none => .vNone

/-- Result of `cast_relationship`: the input `Relationship` returned
unchanged, or a newly constructed relationship. -/
inductive CRRes where
  | unchanged (rtype : Option String) (props : Props)
  | built (st : RelState)
  deriving DecidableEq

/-- Tail of `cast_relationship` after the tuple has been destructured and
the property dict resolved: resolve integer endpoints against `entities`,
then construct `Relationship(start_node, get_type(t), end_node,
**properties)`. -/
def castRelFinish (defType : Option String) (s t e : PyVal) (properties : Props)
    (entities : Option (List PyVal)) : Except CastErr CRRes :=
  match resolveEnd entities s with
  | .error err => .error err
  | .ok s1 =>
    match resolveEnd entities e with
    | .error err => .error err
    | .ok e1 =>
      match getType t with
      | .error err => .error err
      | .ok ty =>
        match relationshipInit defType [s1, pyOfOptStr ty, e1] properties with
        | .ok st => .ok (.built st)
        | .error err => .error err

/-- Function `cast_relationship(obj, entities=None)`: a `Relationship` is
returned unchanged; a 3-tuple `(start, t, end)` takes its properties from
the type slot; a 4-tuple `(start, t, end, properties)` merges the
explicit properties over the type slot's
(`dict(get_properties(t), **properties)`); any other input is a
`TypeError`. -/
def cast_relationship (defType : Option String) (obj : PyVal)
    (entities : Option (List PyVal)) : Except CastErr CRRes :=
  match obj with
  | .vRel rt ps => .ok (.unchanged rt ps)
  | .vTuple [s, t, e] =>
    match getProperties t with
    | .ok properties => castRelFinish defType s t e properties entities
    | .error err => .error err
  | .vTuple [s, t, e, pv] =>
    match getProperties t with
    | .ok tp =>
      match pv with
      | .vDict d => castRelFinish defType s t e (propsUpdate tp d) entities
      | _ => .error .typeErr
    | .error err => .error err
  | .vTuple _ => .error .typeErr
  | _ => .error .typeErr

/-- Result of `cast`: `None` passed through, an entity passed through
unchanged, a node cast from a mapping, or a relationship cast from a
tuple. -/
inductive CastRes where
  | cNone
  | cEntity (v : PyVal)
  | cNode (n : NodeRes)
  | cRel (r : CRRes)

/-- Function `cast(obj, entities=None)`: `None` is returned as is; a
`Node`, `NodeProxy`, `Relationship` or `Path` is returned unchanged; a
dict delegates to `cast_node`; a tuple delegates to `cast_relationship`;
anything else is a `TypeError`. -/
def cast (defType : Option String) (obj : PyVal) (entities : Option (List PyVal)) :
    Except CastErr CastRes :=
  match obj with
  | .vNone => .ok .cNone
  | .vNode i ps => .ok (.cEntity (.vNode i ps))
  | .vNodeProxy i => .ok (.cEntity (.vNodeProxy i))
  | .vRel rt ps => .ok (.cEntity (.vRel rt ps))
  | .vPath => .ok (.cEntity .vPath)
  | .vDict d =>
    match cast_node (.vDict d) with
    | .ok n => .ok (.cNode n)
    | .error e => .error e
  | .vTuple xs =>
    match cast_relationship defType (.vTuple xs) entities with
    | .ok r => .ok (.cRel r)
    | .error e => .error e
  | _ => .error .typeErr

end CA

/- ----------------------------------------------------------------- -/
/- Helper lemmas: property dictionaries                               -/
/- ----------------------------------------------------------------- -/

theorem propsGet_setKey_self (d : Props) (k : String) (v : PVal) :
    propsGet (setKey d (k, v)) k = some v := by
  induction d with
  | nil => simp [setKey, propsGet]
  | cons kv rest ih =>
    by_cases h : kv.1 = k
    · simp [setKey, h, propsGet]
    · simp [setKey, h, propsGet, ih]

theorem propsGet_setKey_ne (d : Props) (k q : String) (v : PVal) (h : k ≠ q) :
    propsGet (setKey d (k, v)) q = propsGet d q := by
  induction d with
  | nil => simp [setKey, propsGet, h]
  | cons kv rest ih =>
    by_cases hk : kv.1 = k
    · simp [setKey, hk, propsGet, h, hk ▸ h]
    · simp [setKey, hk, propsGet, ih]

theorem propsGet_eq_none_iff (d : Props) (k : String) :
    propsGet d k = none ↔ k ∉ propsKeys d := by
  induction d with
  | nil => simp [propsGet, propsKeys]
  | cons kv rest ih =>
    by_cases h : kv.1 = k
    · simp [propsGet, h, propsKeys]
    · simp [propsGet, h, propsKeys, ih, Ne.symm h]

theorem propsUpdate_not_mem (d e : Props) (k : String) (h : k ∉ propsKeys e) :
    propsGet (propsUpdate d e) k = propsGet d k := by
  induction e generalizing d with
  | nil => rfl
  | cons kv rest ih =>
    obtain ⟨k0, v0⟩ := kv
    simp only [propsKeys, List.map_cons, List.mem_cons, not_or] at h
    have hstep : propsUpdate d ((k0, v0) :: rest) = propsUpdate (setKey d (k0, v0)) rest := rfl
    rw [hstep, ih _ (by simpa [propsKeys] using h.2),
      propsGet_setKey_ne _ _ _ _ (Ne.symm h.1)]

theorem propsGet_update_some (d e : Props) (q : String) (v : PVal)
    (hnd : (propsKeys e).Nodup) (hq : propsGet e q = some v) :
    propsGet (propsUpdate d e) q = some v := by
  induction e generalizing d with
  | nil => simp [propsGet] at hq
  | cons kv rest ih =>
    have hstep : propsUpdate d (kv :: rest) = propsUpdate (setKey d kv) rest := rfl
    simp only [propsKeys, List.map_cons, List.nodup_cons] at hnd
    by_cases h : kv.1 = q
    · simp only [propsGet, h, if_pos rfl] at hq
      rw [hstep, propsUpdate_not_mem _ _ _ (by simpa [propsKeys, h] using hnd.1)]
      subst h
      have : kv = (kv.1, v) := by
        cases kv
        simp_all
      rw [this, propsGet_setKey_self]
    · simp only [propsGet, h, if_neg h] at hq
      rw [hstep, ih _ (by simpa [propsKeys] using hnd.2) hq]

theorem propsGet_update_none (d e : Props) (q : String) (hq : propsGet e q = none) :
    propsGet (propsUpdate d e) q = propsGet d q :=
  propsUpdate_not_mem d e q ((propsGet_eq_none_iff e q).1 hq)

theorem propsKeys_setKey (d : Props) (k : String) (v : PVal) :
    propsKeys (setKey d (k, v)) =
      if k ∈ propsKeys d then propsKeys d else propsKeys d ++ [k] := by
  induction d with
  | nil => simp [setKey, propsKeys]
  | cons kv rest ih =>
    by_cases h : kv.1 = k
    · simp [setKey, h, propsKeys]
    · simp only [setKey, if_neg h, propsKeys, List.map_cons] at ih ⊢
      rw [ih]
      by_cases hm : k ∈ List.map Prod.fst rest
      · simp [hm, Ne.symm h]
      · simp [hm, Ne.symm h]

theorem nodup_setKey (d : Props) (k : String) (v : PVal)
    (h : (propsKeys d).Nodup) : (propsKeys (setKey d (k, v))).Nodup := by
  rw [propsKeys_setKey]
  by_cases hm : k ∈ propsKeys d
  · simpa [hm] using h
  · rw [if_neg hm]
    exact List.Nodup.append h (List.nodup_singleton k)
      (by simpa [List.disjoint_singleton] using hm)

theorem nodup_propsUpdate (d e : Props) (h : (propsKeys d).Nodup) :
    (propsKeys (propsUpdate d e)).Nodup := by
  induction e generalizing d with
  | nil => exact h
  | cons kv rest ih =>
    obtain ⟨k0, v0⟩ := kv
    exact ih (setKey d (k0, v0)) (nodup_setKey d k0 v0 h)

theorem propsGet_update_nil (e : Props) (k : String) (h : (propsKeys e).Nodup) :
    propsGet (propsUpdate [] e) k = propsGet e k := by
  cases he : propsGet e k with
  | some v => exact propsGet_update_some [] e k v h he
  | none => rw [propsGet_update_none [] e k he]; rfl

/- ----------------------------------------------------------------- -/
/- Helper lemmas: subgraph algebra                                    -/
/- ----------------------------------------------------------------- -/

namespace SG

theorem mem_relEndpoints {rs : Finset Rel} {x : Nat} :
    x ∈ relEndpoints rs ↔ ∃ r ∈ rs, x = r.src ∨ x = r.dst := by
  simp [relEndpoints, Rel.ends, Finset.mem_biUnion]

theorem closed_mkSubgraph (ns : Finset Nat) (rs : Finset Rel) :
    Closed (mkSubgraph ns rs) := by
  intro r hr
  constructor <;>
  · simp only [mkSubgraph, Finset.mem_union]
    exact Or.inr (mem_relEndpoints.2 ⟨r, hr, by simp⟩)

theorem relEndpoints_subset_of_closed {s : Subgraph} (h : Closed s) :
    relEndpoints s.relationships ⊆ s.nodes := by
  intro x hx
  obtain ⟨r, hr, hor⟩ := mem_relEndpoints.1 hx
  rcases hor with h1 | h1 <;> [exact h1 ▸ (h r hr).1; exact h1 ▸ (h r hr).2]

theorem relEndpoints_mono {rs ts : Finset Rel} (h : rs ⊆ ts) :
    relEndpoints rs ⊆ relEndpoints ts := by
  intro x hx
  obtain ⟨r, hr, hor⟩ := mem_relEndpoints.1 hx
  exact mem_relEndpoints.2 ⟨r, h hr, hor⟩

end SG

/- ----------------------------------------------------------------- -/
/- Helper lemmas: identity caches and hydration stores                -/
/- ----------------------------------------------------------------- -/

namespace HY

theorem cacheGet_cacheSet_self (c : Cache) (k : String) (i : Nat) :
    cacheGet (cacheSet c k i) k = some i := by
  induction c with
  | nil => simp [cacheSet, cacheGet]
  | cons kv rest ih =>
    by_cases h : kv.1 = k
    · simp [cacheSet, h, cacheGet]
    · simp [cacheSet, h, cacheGet, ih]

theorem cacheGet_mem (c : Cache) (k : String) (j : Nat) (h : cacheGet c k = some j) :
    (k, j) ∈ c := by
  induction c with
  | nil => simp [cacheGet] at h
  | cons kv rest ih =>
    by_cases hk : kv.1 = k
    · simp only [cacheGet, if_pos hk] at h
      cases h
      obtain ⟨k1, j1⟩ := kv
      subst hk
      exact List.mem_cons_self _ _
    · simp only [cacheGet, if_neg hk] at h
      exact List.mem_cons_of_mem _ (ih h)

theorem updNode_heap_length (ctx : NodeCtx) (i : Nat) (f : NodeObj → NodeObj) :
    (updNode ctx i f).heap.length = ctx.heap.length := by
  unfold updNode
  cases h : ctx.heap[i]? <;> simp

theorem updNode_cache (ctx : NodeCtx) (i : Nat) (f : NodeObj → NodeObj) :
    (updNode ctx i f).cache = ctx.cache := by
  unfold updNode
  cases h : ctx.heap[i]? <;> simp

theorem updNode_get_self (ctx : NodeCtx) (i : Nat) (f : NodeObj → NodeObj)
    (o : NodeObj) (h : ctx.heap[i]? = some o) :
    (updNode ctx i f).heap[i]? = some (f o) := by
  have hi : i < ctx.heap.length := by
    by_contra hni
    rw [List.getElem?_eq_none (by omega)] at h
    cases h
  unfold updNode
  rw [h]
  simpa using List.getElem?_set_self (l := ctx.heap) (a := f o) hi

theorem updRel_heap_length (ctx : RelCtx) (i : Nat) (f : RelObj → RelObj) :
    (updRel ctx i f).heap.length = ctx.heap.length := by
  unfold updRel
  cases h : ctx.heap[i]? <;> simp

theorem updRel_cache (ctx : RelCtx) (i : Nat) (f : RelObj → RelObj) :
    (updRel ctx i f).cache = ctx.cache := by
  unfold updRel
  cases h : ctx.heap[i]? <;> simp

theorem updRel_nodes (ctx : RelCtx) (i : Nat) (f : RelObj → RelObj) :
    (updRel ctx i f).nodes = ctx.nodes := by
  unfold updRel
  cases h : ctx.heap[i]? <;> simp

theorem updRel_get_self (ctx : RelCtx) (i : Nat) (f : RelObj → RelObj)
    (o : RelObj) (h : ctx.heap[i]? = some o) :
    (updRel ctx i f).heap[i]? = some (f o) := by
  have hi : i < ctx.heap.length := by
    by_contra hni
    rw [List.getElem?_eq_none (by omega)] at h
    cases h
  unfold updRel
  rw [h]
  simpa using List.getElem?_set_self (l := ctx.heap) (a := f o) hi

theorem payloadNode_length (pl : Option Props) (i : Nat) (ctx : NodeCtx) :
    (payloadNode pl i ctx).heap.length = ctx.heap.length := by
  cases pl <;> simp [payloadNode, updNode_heap_length]

theorem payloadNode_cache (pl : Option Props) (i : Nat) (ctx : NodeCtx) :
    (payloadNode pl i ctx).cache = ctx.cache := by
  cases pl <;> simp [payloadNode, updNode_cache]

theorem metaNode_length (m : Option (List String)) (i : Nat) (ctx : NodeCtx) :
    (metaNode m i ctx).heap.length = ctx.heap.length := by
  cases m <;> simp [metaNode, updNode_heap_length]

theorem metaNode_cache (m : Option (List String)) (i : Nat) (ctx : NodeCtx) :
    (metaNode m i ctx).cache = ctx.cache := by
  cases m <;> simp [metaNode, updNode_cache]

theorem metaNode_get_fields (m : Option (List String)) (i : Nat) (ctx : NodeCtx)
    (o : NodeObj) (h : ctx.heap[i]? = some o) :
    ∃ o2, (metaNode m i ctx).heap[i]? = some o2 ∧
      o2.props = o.props ∧ o2.staleProps = o.staleProps ∧ o2.bound = o.bound := by
  cases m with
  | none => exact ⟨o, h, rfl, rfl, rfl⟩
  | some ls =>
    exact ⟨{ o with staleLabels := false, labels := ls },
      updNode_get_self ctx i _ o h, rfl, rfl, rfl⟩

theorem allocNode_hit (ref : String) (ctx : NodeCtx) (j : Nat)
    (h : cacheGet ctx.cache ref = some j) : allocNode ref none ctx = (j, ctx) := by
  unfold allocNode
  rw [h]

theorem allocNode_none_idx_lt (ref : String) (ctx : NodeCtx) (h : ctx.WF) :
    (allocNode ref none ctx).1 < (allocNode ref none ctx).2.heap.length := by
  unfold allocNode
  cases hcg : cacheGet ctx.cache ref with
  | some j => exact h _ (cacheGet_mem _ _ _ hcg)
  | none => simp

theorem nodeHydrate_spec (d : NodeData) (inst : Option Nat) (ctx : NodeCtx) :
    nodeHydrate d inst ctx =
      ((allocNode d.ref inst ctx).1,
        metaNode d.metaLabels (allocNode d.ref inst ctx).1
          (payloadNode d.payload (allocNode d.ref inst ctx).1
            (bindNode d.ref (allocNode d.ref inst ctx).1
              (recacheNode d.ref (allocNode d.ref inst ctx).1
                (allocNode d.ref inst ctx).2)))) := by
  rcases he : allocNode d.ref inst ctx with ⟨i, c⟩
  simp [nodeHydrate, he]

theorem nodeHydrate_cache_self (d : NodeData) (inst : Option Nat) (ctx : NodeCtx) :
    cacheGet (nodeHydrate d inst ctx).2.cache d.ref = some (nodeHydrate d inst ctx).1 := by
  rw [nodeHydrate_spec]
  simp only [metaNode_cache, payloadNode_cache]
  rw [show ∀ (r : String) (i : Nat) (c : NodeCtx), (bindNode r i c).cache = c.cache from
    fun r i c => updNode_cache c i _]
  exact cacheGet_cacheSet_self _ _ _

theorem nodeHydrate_length (d : NodeData) (inst : Option Nat) (ctx : NodeCtx) :
    (nodeHydrate d inst ctx).2.heap.length = (allocNode d.ref inst ctx).2.heap.length := by
  rw [nodeHydrate_spec]
  simp only [metaNode_length, payloadNode_length]
  exact updNode_heap_length _ _ _

theorem nodeHydrate_idx_lt (d : NodeData) (ctx : NodeCtx) (h : ctx.WF) :
    (nodeHydrate d none ctx).1 < (nodeHydrate d none ctx).2.heap.length := by
  have h1 := allocNode_none_idx_lt d.ref ctx h
  rw [nodeHydrate_length]
  rw [show (nodeHydrate d none ctx).1 = (allocNode d.ref none ctx).1 by
    rw [nodeHydrate_spec]]
  exact h1

theorem nodeHydrate_props_of_payload (d : NodeData) (inst : Option Nat) (ctx : NodeCtx)
    (p : Props) (hp : d.payload = some p)
    (hi : (allocNode d.ref inst ctx).1 < (allocNode d.ref inst ctx).2.heap.length) :
    ((nodeHydrate d inst ctx).2.heap[(nodeHydrate d inst ctx).1]?).map NodeObj.props =
      some p ∧
    ((nodeHydrate d inst ctx).2.heap[(nodeHydrate d inst ctx).1]?).map
      NodeObj.staleProps = some false := by
  have ho : (allocNode d.ref inst ctx).2.heap[(allocNode d.ref inst ctx).1]? =
      some ((allocNode d.ref inst ctx).2.heap[(allocNode d.ref inst ctx).1]) :=
    List.getElem?_eq_getElem hi
  have h1 : (recacheNode d.ref (allocNode d.ref inst ctx).1
      (allocNode d.ref inst ctx).2).heap[(allocNode d.ref inst ctx).1]? =
      some ((allocNode d.ref inst ctx).2.heap[(allocNode d.ref inst ctx).1]) := ho
  have h2 := updNode_get_self _ (allocNode d.ref inst ctx).1
    (fun o => { o with bound := some d.ref }) _ h1
  have h3 := updNode_get_self _ (allocNode d.ref inst ctx).1
    (fun o => { o with staleProps := false, props := p }) _ h2
  obtain ⟨o2, ho2, hpr, hst, _⟩ := metaNode_get_fields d.metaLabels _ _ _ h3
  rw [nodeHydrate_spec, hp]
  simp only [payloadNode, bindNode]
  rw [ho2]
  simp [hpr, hst]

theorem finishRel_length (ref : String) (i : Nat) (ctx : RelCtx) :
    (finishRel ref i ctx).heap.length = ctx.heap.length := by
  unfold finishRel
  rw [updRel_heap_length]

theorem finishRel_cache_self (ref : String) (i : Nat) (ctx : RelCtx) :
    cacheGet (finishRel ref i ctx).cache ref = some i := by
  unfold finishRel
  rw [updRel_cache]
  exact cacheGet_cacheSet_self _ _ _

theorem finishRel_get (ref : String) (i : Nat) (ctx : RelCtx) (o : RelObj)
    (h : ctx.heap[i]? = some o) :
    (finishRel ref i ctx).heap[i]? = some { o with bound := some ref } := by
  unfold finishRel
  exact updRel_get_self _ i _ o h

theorem allocRel_hit (d : RelData) (ctx : RelCtx) (j : Nat)
    (h : cacheGet ctx.cache d.ref = some j) :
    (allocRel d ctx).1 = j ∧ (allocRel d ctx).2.heap = ctx.heap ∧
      (allocRel d ctx).2.cache = ctx.cache := by
  unfold allocRel
  rcases h1 : nodeHydrate ⟨d.start, none, none⟩ none ctx.nodes with ⟨s, n1⟩
  rcases h2 : nodeHydrate ⟨d.rend, none, none⟩ none n1 with ⟨e, n2⟩
  simp [h1, h2, h]

theorem allocRel_idx_lt (d : RelData) (ctx : RelCtx) (h : ctx.WF) :
    (allocRel d ctx).1 < (allocRel d ctx).2.heap.length := by
  unfold allocRel
  rcases h1 : nodeHydrate ⟨d.start, none, none⟩ none ctx.nodes with ⟨s, n1⟩
  rcases h2 : nodeHydrate ⟨d.rend, none, none⟩ none n1 with ⟨e, n2⟩
  cases hcg : cacheGet ctx.cache d.ref with
  | some j => simpa [h1, h2, hcg] using h _ (cacheGet_mem _ _ _ hcg)
  | none => simp [h1, h2, hcg]

theorem relHydrate_none_spec (d : RelData) (ctx : RelCtx) :
    relHydrate d none ctx =
      ((allocRel d ctx).1, finishRel d.ref (allocRel d ctx).1 (allocRel d ctx).2) := by
  rcases he : allocRel d ctx with ⟨i, c⟩
  simp [relHydrate, he]

theorem relHydrate_none_cache_self (d : RelData) (ctx : RelCtx) :
    cacheGet (relHydrate d none ctx).2.cache d.ref = some (relHydrate d none ctx).1 := by
  rw [relHydrate_none_spec]
  exact finishRel_cache_self _ _ _

theorem relHydrate_none_idx_lt (d : RelData) (ctx : RelCtx) (h : ctx.WF) :
    (relHydrate d none ctx).1 < (relHydrate d none ctx).2.heap.length := by
  rw [relHydrate_none_spec]
  rw [finishRel_length]
  exact allocRel_idx_lt d ctx h

theorem relHydrate_hit_preserves (d : RelData) (ctx : RelCtx) (j : Nat)
    (hcg : cacheGet ctx.cache d.ref = some j) (hj : j < ctx.heap.length) :
    (relHydrate d none ctx).1 = j ∧
    (relHydrate d none ctx).2.heap.length = ctx.heap.length ∧
    ((relHydrate d none ctx).2.heap[j]?).map RelObj.props =
      (ctx.heap[j]?).map RelObj.props ∧
    ((relHydrate d none ctx).2.heap[j]?).map RelObj.rtype =
      (ctx.heap[j]?).map RelObj.rtype := by
  obtain ⟨h1, hheap, _⟩ := allocRel_hit d ctx j hcg
  rw [relHydrate_none_spec, h1]
  have ho : ctx.heap[j]? = some (ctx.heap[j]) := List.getElem?_eq_getElem hj
  have ho2 : (allocRel d ctx).2.heap[j]? = some (ctx.heap[j]) := by rw [hheap]; exact ho
  refine ⟨rfl, by rw [finishRel_length, hheap], ?_, ?_⟩ <;>
    rw [finishRel_get d.ref j _ _ ho2, ho] <;> rfl

theorem overwriteRel_get (d : RelData) (i : Nat) (ctx : RelCtx) (o : RelObj)
    (ho : ctx.heap[i]? = some o) (p : Props) (hp : d.payload = some p) :
    (overwriteRel d i ctx).heap[i]? =
      some { o with rtype := d.rtype, props := p } := by
  unfold overwriteRel
  rcases h1 : nodeHydrate ⟨d.start, none, none⟩
    (some (((ctx.heap[i]?).map RelObj.startId).getD 0)) ctx.nodes with ⟨s, n1⟩
  rcases h2 : nodeHydrate ⟨d.rend, none, none⟩
    (some (((ctx.heap[i]?).map RelObj.endId).getD 0)) n1 with ⟨e, n2⟩
  simp only [h1, h2, hp]
  have hA : ({ ctx with nodes := n2 } : RelCtx).heap[i]? = some o := ho
  have hB := updRel_get_self _ i (fun o => { o with rtype := d.rtype }) o hA
  have hC := updRel_get_self _ i (fun o => { o with props := p }) _ hB
  exact hC

theorem relHydrate_inst_overwrites (d : RelData) (ctx : RelCtx) (i : Nat) (p : Props)
    (hi : i < ctx.heap.length) (hp : d.payload = some p) :
    (relHydrate d (some i) ctx).1 = i ∧
    ((relHydrate d (some i) ctx).2.heap[i]?).map RelObj.props = some p := by
  have ho : ctx.heap[i]? = some (ctx.heap[i]) := List.getElem?_eq_getElem hi
  have h1 := overwriteRel_get d i ctx _ ho p hp
  refine ⟨rfl, ?_⟩
  show ((finishRel d.ref i (overwriteRel d i ctx)).heap[i]?).map RelObj.props = some p
  rw [finishRel_get d.ref i _ _ h1]
  rfl

end HY

/- ----------------------------------------------------------------- -/
/- Helper lemmas: casting                                             -/
/- ----------------------------------------------------------------- -/

namespace CA

theorem relPrep_length (args : List PyVal) :
    ∀ (acc res : List RelPos × Props), relPrep args acc = .ok res →
      res.1.length = acc.1.length + args.length := by
  induction args with
  | nil =>
    intro acc res h
    cases h
    simp
  | cons v vs ih =>
    intro acc res h
    rw [relPrep] at h
    cases hv : relPrepOne v with
    | ok pd =>
      rw [hv] at h
      have := ih _ _ h
      simp only [List.length_append, List.length_singleton, List.length_cons,
        List.length_nil] at this ⊢
      omega
    | error e => rw [hv] at h; cases h

end CA

/- ----------------------------------------------------------------- -/
/- Claim C1                                                           -/
/- ----------------------------------------------------------------- -/

/-- C1: every `Subgraph` produced by the constructor, and every result of
union, intersection, difference or symmetric difference, satisfies the
closure invariant (every endpoint of every relationship in the result is
in the result's node set); and difference keeps every node of the left
operand that is absent from the right operand, even an isolated one. -/
theorem subgraph_closure_invariant :
    (∀ (ns : Finset Nat) (rs : Finset SG.Rel), SG.Closed (SG.mkSubgraph ns rs)) ∧
    (∀ a b : SG.Subgraph, SG.Closed (SG.union a b)) ∧
    (∀ a b : SG.Subgraph, SG.Closed (SG.inter a b)) ∧
    (∀ a b : SG.Subgraph, SG.Closed (SG.diff a b)) ∧
    (∀ a b : SG.Subgraph, SG.Closed (SG.sdiff a b)) ∧
    (∀ a b : SG.Subgraph, ∀ v ∈ a.nodes, v ∉ b.nodes → v ∈ (SG.diff a b).nodes) := by
  refine ⟨fun ns rs => SG.closed_mkSubgraph ns rs,
    fun a b => SG.closed_mkSubgraph _ _,
    fun a b => SG.closed_mkSubgraph _ _,
    fun a b => SG.closed_mkSubgraph _ _,
    fun a b => SG.closed_mkSubgraph _ _,
    fun a b v hv hnv => ?_⟩
  simp only [SG.diff, SG.mkSubgraph, Finset.mem_union]
  exact Or.inl (Or.inl (Finset.mem_sdiff.2 ⟨hv, hnv⟩))

/-- C1 witness: the closure invariant and the isolated-node rule evaluated
on concrete subgraphs. -/
theorem subgraph_closure_invariant_witness :
    SG.Closed SG.sgEx0 ∧ (7 : Nat) ∈ (SG.diff SG.sgEx1 SG.sgEx2).nodes :=
  ⟨subgraph_closure_invariant.1 SG.sgEx0ns SG.sgEx0rs,
   subgraph_closure_invariant.2.2.2.2.2 SG.sgEx1 SG.sgEx2 7
     (by simp [SG.sgEx1, SG.mkSubgraph, SG.relEndpoints])
     (by simp [SG.sgEx2, SG.mkSubgraph, SG.relEndpoints])⟩

/- ----------------------------------------------------------------- -/
/- Claim C8                                                           -/
/- ----------------------------------------------------------------- -/

/-- C8: for all closed subgraphs `A` and `B`, the node count of the union
is at most the sum of the node counts, and intersecting the union with
the intersection gives back the intersection, with structural equality on
the node and relationship sets. -/
theorem subgraph_algebra_laws (a b : SG.Subgraph)
    (ha : SG.Closed a) (hb : SG.Closed b) :
    SG.order (SG.union a b) ≤ SG.order a + SG.order b ∧
    SG.inter (SG.union a b) (SG.inter a b) = SG.inter a b := by
  constructor
  · have hE : SG.relEndpoints (a.relationships ∪ b.relationships) ⊆ a.nodes ∪ b.nodes := by
      intro x hx
      obtain ⟨r, hr, hor⟩ := SG.mem_relEndpoints.1 hx
      rcases Finset.mem_union.1 hr with hr1 | hr1
      · rcases hor with h1 | h1 <;>
          [exact Finset.mem_union_left _ (h1 ▸ (ha r hr1).1);
            exact Finset.mem_union_left _ (h1 ▸ (ha r hr1).2)]
      · rcases hor with h1 | h1 <;>
          [exact Finset.mem_union_right _ (h1 ▸ (hb r hr1).1);
            exact Finset.mem_union_right _ (h1 ▸ (hb r hr1).2)]
    have hnodes : (SG.union a b).nodes = a.nodes ∪ b.nodes := by
      simp only [SG.union, SG.mkSubgraph]
      exact Finset.union_eq_left.2 hE
    calc SG.order (SG.union a b) = (a.nodes ∪ b.nodes).card := by rw [SG.order, hnodes]
      _ ≤ a.nodes.card + b.nodes.card := Finset.card_union_le _ _
  · have hrels : (a.relationships ∪ b.relationships) ∩ (a.relationships ∩ b.relationships) =
        a.relationships ∩ b.relationships :=
      Finset.inter_eq_right.2 (Finset.inter_subset_union)
    have hIU : (SG.inter a b).nodes ⊆ (SG.union a b).nodes := by
      simp only [SG.inter, SG.union, SG.mkSubgraph]
      apply Finset.union_subset_union
      · exact Finset.inter_subset_union
      · exact SG.relEndpoints_mono Finset.inter_subset_union
    have hEI : SG.relEndpoints (a.relationships ∩ b.relationships) ⊆ (SG.inter a b).nodes := by
      simp only [SG.inter, SG.mkSubgraph]
      exact Finset.subset_union_right
    simp only [SG.inter, SG.union, SG.mkSubgraph, SG.Subgraph.mk.injEq] at hIU hEI ⊢
    rw [hrels]
    constructor
    · rw [Finset.inter_eq_right.2 hIU]
      exact Finset.union_eq_left.2 hEI
    · rfl

/- ----------------------------------------------------------------- -/
/- Claim C2                                                           -/
/- ----------------------------------------------------------------- -/

/-- C2: `traverse` builds its result left to right with a cursor starting
at the first object's end node; for each subsequent object, a cursor
matching its start node appends its sequence minus the leading element
and moves the cursor to its end node, while a cursor matching only its
end node appends its reversed sequence minus the leading element and
moves the cursor to its start node; in particular for relationships
`r1 : a → b` and `r2 : c → b`, traversing the walks `a, r1, b` and
`c, r2, b` yields exactly the walk `a, r1, b, r2, c`. -/
theorem traverse_left_to_right :
    (∀ (w : TR.Walk) (ws : List TR.Walk),
      TR.traverse (w :: ws) = TR.traverseFrom w.seq w.endNode ws) ∧
    (∀ (acc : List TR.GEnt) (cursor : Nat) (w : TR.Walk) (ws : List TR.Walk),
      cursor = w.startNode →
      TR.traverseFrom acc cursor (w :: ws) =
        TR.traverseFrom (acc ++ w.seq.drop 1) w.endNode ws) ∧
    (∀ (acc : List TR.GEnt) (cursor : Nat) (w : TR.Walk) (ws : List TR.Walk),
      cursor ≠ w.startNode → cursor = w.endNode →
      TR.traverseFrom acc cursor (w :: ws) =
        TR.traverseFrom (acc ++ w.seq.reverse.drop 1) w.startNode ws) ∧
    (∀ a b c r1 r2 : Nat, b ≠ c →
      TR.traverse [⟨a, [(r1, b)]⟩, ⟨c, [(r2, b)]⟩] =
        .ok [.nd a, .rl r1, .nd b, .rl r2, .nd c]) := by
  refine ⟨fun w ws => rfl, fun acc cursor w ws h => ?_, fun acc cursor w ws h1 h2 => ?_,
    fun a b c r1 r2 h => ?_⟩
  · simp [TR.traverseFrom, h]
  · subst h2
    simp [TR.traverseFrom, h1]
  · simp [TR.traverse, TR.traverseFrom, TR.Walk.seq, TR.Walk.startNode, TR.Walk.endNode, h]

/-- C2 witness: the concrete splice evaluated on nodes `0, 1, 2` and
relationships `10 : 0 → 1`, `11 : 2 → 1`. -/
theorem traverse_left_to_right_witness :
    TR.traverse [⟨0, [(10, 1)]⟩, ⟨2, [(11, 1)]⟩] =
      .ok [.nd 0, .rl 10, .nd 1, .rl 11, .nd 2] :=
  traverse_left_to_right.2.2.2 0 1 2 10 11 (by decide)

/- ----------------------------------------------------------------- -/
/- Claim C5                                                           -/
/- ----------------------------------------------------------------- -/

theorem traverseFrom_error_iff (ws : List TR.Walk) :
    ∀ (acc : List TR.GEnt) (cursor : Nat),
      TR.traverseFrom acc cursor ws = .error .cannotAppend ↔
        TR.contiguousFrom cursor ws = false := by
  induction ws with
  | nil => intro acc cursor; simp [TR.traverseFrom, TR.contiguousFrom]
  | cons w ws ih =>
    intro acc cursor
    by_cases h1 : cursor = w.startNode
    · simp [TR.traverseFrom, TR.contiguousFrom, h1, ih]
    · by_cases h2 : cursor = w.endNode
      · subst h2
        simp [TR.traverseFrom, TR.contiguousFrom, h1, ih]
      · simp [TR.traverseFrom, TR.contiguousFrom, h1, h2]

/-- C5: `traverse` raises the composition error on a non-empty input if
and only if, walking left to right with the cursor starting at the first
object's end node, some subsequent object has both its start node and its
end node different from the cursor (node equality being identity). -/
theorem traverse_error_iff_not_contiguous (w : TR.Walk) (ws : List TR.Walk) :
    TR.traverse (w :: ws) = .error .cannotAppend ↔
      TR.contiguousFrom w.endNode ws = false :=
  traverseFrom_error_iff ws w.seq w.endNode

/-- C8 witness: the two laws evaluated on concrete closed subgraphs. -/
theorem subgraph_algebra_laws_witness :
    SG.order (SG.union SG.sgEx3 SG.sgEx4) ≤ SG.order SG.sgEx3 + SG.order SG.sgEx4 :=
  (subgraph_algebra_laws SG.sgEx3 SG.sgEx4
    (SG.closed_mkSubgraph _ _) (SG.closed_mkSubgraph _ _)).1

/- ----------------------------------------------------------------- -/
/- Claim C10                                                          -/
/- ----------------------------------------------------------------- -/

/-- C10: `cast_node(None)` and `cast(None)` both return `None` unchanged,
neither raising an error nor allocating a fresh `Node`. -/
theorem cast_none_returns_none :
    CA.cast_node .vNone = .ok .rnone ∧
    (∀ (dt : Option String) (ents : Option (List CA.PyVal)),
      CA.cast dt .vNone ents = .ok .cNone) ∧
    (∀ e, CA.cast_node .vNone ≠ .error e) ∧
    (∀ ls ps, CA.cast_node .vNone ≠ .ok (.fresh ls ps)) := by
  refine ⟨rfl, fun dt ents => rfl, fun e h => ?_, fun ls ps h => ?_⟩ <;>
    simp [CA.cast_node] at h

/- ----------------------------------------------------------------- -/
/- Claim C6                                                           -/
/- ----------------------------------------------------------------- -/

/-- C6 counterexample: `None` is not a recognized entity, a mapping, or a
tuple, yet `cast(None)` succeeds with `None` instead of failing with a
type error. -/
theorem cast_none_not_type_error :
    CA.cast none .vNone none = .ok .cNone ∧
    ∀ e, CA.cast none .vNone none ≠ .error e := by
  refine ⟨rfl, fun e h => ?_⟩
  simp [CA.cast] at h

/-- C6 amended: `cast(v)` returns `v` unchanged when `v` is a recognized
entity (`Node`, `NodeProxy`, `Relationship`, `Path`), returns `None`
unchanged when `v` is `None`, delegates to node-casting when `v` is a
mapping, delegates to relationship-casting when `v` is a tuple of any
arity (succeeding only when the tuple is a well-formed 3- or 4-element
relationship spec), and fails with a type error for every other input. -/
theorem cast_dispatch (dt : Option String) (ents : Option (List CA.PyVal)) :
    (CA.cast dt .vNone ents = .ok .cNone) ∧
    (∀ i ps, CA.cast dt (.vNode i ps) ents = .ok (.cEntity (.vNode i ps))) ∧
    (∀ i, CA.cast dt (.vNodeProxy i) ents = .ok (.cEntity (.vNodeProxy i))) ∧
    (∀ rt ps, CA.cast dt (.vRel rt ps) ents = .ok (.cEntity (.vRel rt ps))) ∧
    (CA.cast dt .vPath ents = .ok (.cEntity .vPath)) ∧
    (∀ d, CA.cast dt (.vDict d) ents = .ok (.cNode (.fresh [] (propsUpdate [] d)))) ∧
    (∀ xs, CA.cast dt (.vTuple xs) ents =
      Except.map CA.CastRes.cRel (CA.cast_relationship dt (.vTuple xs) ents)) ∧
    (∀ x y, CA.cast dt (.vTuple [x, y]) ents = .error .typeErr) ∧
    (∀ s, CA.cast dt (.vStr s) ents = .error .typeErr) ∧
    (∀ xs, CA.cast dt (.vList xs) ents = .error .typeErr) ∧
    (∀ n, CA.cast dt (.vInt n) ents = .error .typeErr) ∧
    (CA.cast dt .vOther ents = .error .typeErr) := by
  refine ⟨rfl, fun i ps => rfl, fun i => rfl, fun rt ps => rfl, rfl, fun d => rfl,
    fun xs => ?_, fun x y => rfl, fun s => rfl, fun xs => rfl, fun n => rfl, rfl⟩
  simp only [CA.cast]
  cases CA.cast_relationship dt (.vTuple xs) ents <;> simp [Except.map]

/- ----------------------------------------------------------------- -/
/- Claim C7                                                           -/
/- ----------------------------------------------------------------- -/

/-- C7 counterexample: constructing a `Relationship` from three node
arguments does not raise the hyperedge error; the middle node is silently
stored as the relationship type. -/
theorem relationship_three_nodes_counterexample :
    CA.relationshipInit none [.vNode 1 [], .vNode 2 [], .vNode 3 []] [] =
      .ok ⟨.tval (.existing 2 []), .nd (.existing 1 []), .nd (.existing 3 []), []⟩ ∧
    CA.relationshipInit none [.vNode 1 [], .vNode 2 [], .vNode 3 []] [] ≠
      .error .hyperedge := by
  refine ⟨rfl, fun h => ?_⟩
  rw [show CA.relationshipInit none [.vNode 1 [], .vNode 2 [], .vNode 3 []] [] =
      .ok ⟨.tval (.existing 2 []), .nd (.existing 1 []), .nd (.existing 3 []), []⟩ from rfl] at h
  exact Except.noConfusion h

/-- C7 amended: a relationship construction whose preprocessed positional
argument list has four or more entries fails with the hyperedge error (so
with at least four raw arguments the construction never succeeds); a
three-argument construction takes the middle argument as the type slot
even when it is a node, so three nodes can be supplied without an error;
and every successfully constructed relationship is a traversal of length
1 whose node sequence consists of exactly its two endpoints, which may
coincide (a one-argument construction yields a self-loop). -/
theorem relationship_arity_rules :
    (∀ (dt : Option String) (n : List CA.RelPos) (p : Props), 4 ≤ n.length →
      CA.propertyRelationshipInit dt n p = .error .hyperedge) ∧
    (∀ (dt : Option String) (args : List CA.PyVal) (p : Props), 4 ≤ args.length →
      ∀ st, CA.relationshipInit dt args p ≠ .ok st) ∧
    (∀ (dt : Option String) (a b c : CA.NodeRes) (p : Props),
      CA.propertyRelationshipInit dt [.nd a, .nd b, .nd c] p =
        .ok ⟨CA.typeSlotOfPos (.nd b), .nd a, .nd c, p⟩) ∧
    (∀ st : CA.RelState, st.length = 1 ∧
      st.nodeSeq = [.endpoint st.src, .endpoint st.dst]) ∧
    (∀ (dt : Option String) (i : Nat) (ps p : Props),
      CA.relationshipInit dt [.vNode i ps] p =
        .ok ⟨CA.typeSlotOfDefault dt, .nd (.existing i ps), .nd (.existing i ps),
          propsUpdate [] p⟩) := by
  have h4 : ∀ (dt : Option String) (n : List CA.RelPos) (p : Props), 4 ≤ n.length →
      CA.propertyRelationshipInit dt n p = .error .hyperedge := by
    intro dt n p h
    match n with
    | [] => simp at h
    | [a] => simp at h
    | [a, b] => simp at h
    | [a, b, c] => simp at h
    | a :: b :: c :: d :: rest => rfl
  refine ⟨h4, fun dt args p h st hok => ?_, fun dt a b c p => rfl, fun st => ⟨rfl, rfl⟩,
    fun dt i ps p => rfl⟩
  rw [CA.relationshipInit] at hok
  rcases hpre : CA.relPrep args ([], []) with e | acc
  · rw [hpre] at hok
    exact Except.noConfusion (show Except.error e = Except.ok st from hok)
  · rw [hpre] at hok
    have hlen := CA.relPrep_length args ([], []) acc hpre
    have hok2 : CA.propertyRelationshipInit dt acc.1 (propsUpdate acc.2 p) =
        Except.ok st := hok
    rw [h4 dt acc.1 (propsUpdate acc.2 p) (by simp only [List.length_nil] at hlen; omega)]
      at hok2
    exact Except.noConfusion hok2

/-- C7 amended witness: four arguments fail with the hyperedge error. -/
theorem relationship_arity_rules_witness :
    CA.propertyRelationshipInit none [.nd .rnone, .nd .rnone, .nd .rnone, .nd .rnone] [] =
      .error .hyperedge ∧
    CA.relationshipInit none [.vNone, .vNone, .vNone, .vNone] [] ≠
      .ok ⟨.tnone, .nd .rnone, .nd .rnone, []⟩ :=
  ⟨relationship_arity_rules.1 none [.nd .rnone, .nd .rnone, .nd .rnone, .nd .rnone] []
    (by decide),
   relationship_arity_rules.2.1 none [.vNone, .vNone, .vNone, .vNone] [] (by decide) _⟩

/- ----------------------------------------------------------------- -/
/- Claim C3                                                           -/
/- ----------------------------------------------------------------- -/

/-- C3 counterexample: hydrating the same relationship reference twice
(with `inst` omitted, as `Relationship.hydrate` itself does) returns the
same cached instance, but the second hydration's payload
(`since = 2020`) does not overwrite the stored properties, which remain
`since = 1999`. -/
theorem relationship_rehydrate_drops_payload :
    (HY.relHydrate HY.exRelData2 none (HY.relHydrate HY.exRelData1 none HY.exRelCtx).2).1 =
      (HY.relHydrate HY.exRelData1 none HY.exRelCtx).1 ∧
    ((HY.relHydrate HY.exRelData2 none
        (HY.relHydrate HY.exRelData1 none HY.exRelCtx).2).2.heap[0]?).map
      HY.RelObj.props = some [("since", .pint 1999)] ∧
    HY.exRelData2.payload = some [("since", .pint 2020)] ∧
    ([("since", PVal.pint 1999)] : Props) ≠ [("since", PVal.pint 2020)] :=
  ⟨rfl, rfl, rfl, by decide⟩

/-- C3 amended: hydrating the same reference twice returns the identical
instance without allocating, for nodes and for relationships alike; the
second payload overwrites the instance's fields in place for `Node`
hydration, whereas for `Relationship` hydration with `inst` omitted the
cached instance keeps its old properties and type, and the payload
overwrites in place only when the existing instance is passed as `inst`. -/
theorem hydrate_identity_cache :
    (∀ (ctx : HY.NodeCtx) (d1 d2 : HY.NodeData) (p2 : Props),
      ctx.WF → d2.ref = d1.ref → d2.payload = some p2 →
      (HY.nodeHydrate d2 none (HY.nodeHydrate d1 none ctx).2).1 =
        (HY.nodeHydrate d1 none ctx).1 ∧
      (HY.nodeHydrate d2 none (HY.nodeHydrate d1 none ctx).2).2.heap.length =
        (HY.nodeHydrate d1 none ctx).2.heap.length ∧
      ((HY.nodeHydrate d2 none (HY.nodeHydrate d1 none ctx).2).2.heap[
          (HY.nodeHydrate d1 none ctx).1]?).map HY.NodeObj.props = some p2 ∧
      ((HY.nodeHydrate d2 none (HY.nodeHydrate d1 none ctx).2).2.heap[
          (HY.nodeHydrate d1 none ctx).1]?).map HY.NodeObj.staleProps = some false) ∧
    (∀ (ctx : HY.RelCtx) (d1 d2 : HY.RelData),
      ctx.WF → d2.ref = d1.ref →
      (HY.relHydrate d2 none (HY.relHydrate d1 none ctx).2).1 =
        (HY.relHydrate d1 none ctx).1 ∧
      (HY.relHydrate d2 none (HY.relHydrate d1 none ctx).2).2.heap.length =
        (HY.relHydrate d1 none ctx).2.heap.length ∧
      ((HY.relHydrate d2 none (HY.relHydrate d1 none ctx).2).2.heap[
          (HY.relHydrate d1 none ctx).1]?).map HY.RelObj.props =
        ((HY.relHydrate d1 none ctx).2.heap[(HY.relHydrate d1 none ctx).1]?).map
          HY.RelObj.props ∧
      ((HY.relHydrate d2 none (HY.relHydrate d1 none ctx).2).2.heap[
          (HY.relHydrate d1 none ctx).1]?).map HY.RelObj.rtype =
        ((HY.relHydrate d1 none ctx).2.heap[(HY.relHydrate d1 none ctx).1]?).map
          HY.RelObj.rtype) ∧
    (∀ (ctx : HY.RelCtx) (d : HY.RelData) (i : Nat) (p : Props),
      i < ctx.heap.length → d.payload = some p →
      (HY.relHydrate d (some i) ctx).1 = i ∧
      ((HY.relHydrate d (some i) ctx).2.heap[i]?).map HY.RelObj.props = some p) := by
  refine ⟨fun ctx d1 d2 p2 hwf href hp => ?_, fun ctx d1 d2 hwf href => ?_,
    fun ctx d i p hi hp => HY.relHydrate_inst_overwrites d ctx i p hi hp⟩
  · have hc1 := HY.nodeHydrate_cache_self d1 none ctx
    have hl1 := HY.nodeHydrate_idx_lt d1 ctx hwf
    have hhit : HY.allocNode d2.ref none (HY.nodeHydrate d1 none ctx).2 =
        ((HY.nodeHydrate d1 none ctx).1, (HY.nodeHydrate d1 none ctx).2) :=
      HY.allocNode_hit d2.ref _ _ (href ▸ hc1)
    have hfst : (HY.nodeHydrate d2 none (HY.nodeHydrate d1 none ctx).2).1 =
        (HY.nodeHydrate d1 none ctx).1 := by
      rw [HY.nodeHydrate_spec, hhit]
    have hlen : (HY.nodeHydrate d2 none (HY.nodeHydrate d1 none ctx).2).2.heap.length =
        (HY.nodeHydrate d1 none ctx).2.heap.length := by
      rw [HY.nodeHydrate_length, hhit]
    have hprops := HY.nodeHydrate_props_of_payload d2 none
      (HY.nodeHydrate d1 none ctx).2 p2 hp (by rw [hhit]; exact hl1)
    rw [hfst] at hprops
    exact ⟨hfst, hlen, hprops.1, hprops.2⟩
  · have hc1 := HY.relHydrate_none_cache_self d1 ctx
    have hl1 := HY.relHydrate_none_idx_lt d1 ctx hwf
    exact HY.relHydrate_hit_preserves d2 _ _ (href ▸ hc1) hl1

/-- C3 amended witness: the node half evaluated on an empty store, first
hydrating reference `node/1` bare and then with payload `age = 44`. -/
theorem hydrate_identity_cache_witness :
    (HY.nodeHydrate HY.exNodeData2 none
        (HY.nodeHydrate HY.exNodeData1 none HY.exNodeCtx).2).1 =
      (HY.nodeHydrate HY.exNodeData1 none HY.exNodeCtx).1 ∧
    (HY.nodeHydrate HY.exNodeData2 none
        (HY.nodeHydrate HY.exNodeData1 none HY.exNodeCtx).2).2.heap.length =
      (HY.nodeHydrate HY.exNodeData1 none HY.exNodeCtx).2.heap.length ∧
    ((HY.nodeHydrate HY.exNodeData2 none
        (HY.nodeHydrate HY.exNodeData1 none HY.exNodeCtx).2).2.heap[
        (HY.nodeHydrate HY.exNodeData1 none HY.exNodeCtx).1]?).map
      HY.NodeObj.props = some [("age", .pint 44)] ∧
    ((HY.nodeHydrate HY.exNodeData2 none
        (HY.nodeHydrate HY.exNodeData1 none HY.exNodeCtx).2).2.heap[
        (HY.nodeHydrate HY.exNodeData1 none HY.exNodeCtx).1]?).map
      HY.NodeObj.staleProps = some false :=
  hydrate_identity_cache.1 HY.exNodeCtx HY.exNodeData1 HY.exNodeData2
    [("age", .pint 44)] (by simp [HY.NodeCtx.WF, HY.exNodeCtx]) rfl rfl

/- ----------------------------------------------------------------- -/
/- Claim C4                                                           -/
/- ----------------------------------------------------------------- -/

/-- C4: reading a property of a bound node whose property group is stale
issues exactly one refresh request, reads the value from the refreshed
data, and marks the group fresh; a second read performs no further
refresh request. -/
theorem stale_access_single_refresh (w : PL.PullWorld) (k1 k2 : String)
    (hb : w.node.bound.isSome = true) (hs : w.node.staleProps = true) :
    (PL.nodeGetItem w k1).1 = propsGet w.remoteProps k1 ∧
    (PL.nodeGetItem w k1).2.pullRequests = w.pullRequests + 1 ∧
    (PL.nodeGetItem w k1).2.node.staleProps = false ∧
    (PL.nodeGetItem (PL.nodeGetItem w k1).2 k2).2.pullRequests =
      (PL.nodeGetItem w k1).2.pullRequests := by
  simp [PL.nodeGetItem, PL.graphPullNode, hb, hs]

/-- C4 witness: the refresh protocol evaluated on a concrete stale bound
node. -/
theorem stale_access_single_refresh_witness :
    (PL.nodeGetItem PL.exWorld "name").1 =
      propsGet PL.exWorld.remoteProps "name" ∧
    (PL.nodeGetItem PL.exWorld "name").2.pullRequests =
      PL.exWorld.pullRequests + 1 ∧
    (PL.nodeGetItem PL.exWorld "name").2.node.staleProps = false ∧
    (PL.nodeGetItem (PL.nodeGetItem PL.exWorld "name").2 "name").2.pullRequests =
      (PL.nodeGetItem PL.exWorld "name").2.pullRequests :=
  stale_access_single_refresh PL.exWorld "name" "name" rfl rfl

/- ----------------------------------------------------------------- -/
/- Claim C9                                                           -/
/- ----------------------------------------------------------------- -/

/-- C9: `cast_relationship` on a 3-tuple `(a, t, b)` yields a
relationship from `a` to `b` whose type is resolved from `t` (a literal
string, a relationship exposing its type, or a `(type, properties)`
pair) and whose properties are the ones embedded in the type slot; on a
4-tuple the explicit properties are merged over the embedded ones, the
explicit values winning on key conflict (the final two conjuncts read
the stored merge expression back at any key). -/
theorem cast_relationship_tuples :
    (∀ (dt : Option String) (a : Nat) (pa : Props) (T : String) (b : Nat) (pb : Props),
      CA.cast_relationship dt (.vTuple [.vNode a pa, .vStr T, .vNode b pb]) none =
        .ok (.built ⟨.ts T, .nd (.existing a pa), .nd (.existing b pb), []⟩)) ∧
    (∀ (dt : Option String) (a : Nat) (pa : Props) (rt : Option String) (rp : Props)
        (b : Nat) (pb : Props),
      CA.cast_relationship dt (.vTuple [.vNode a pa, .vRel rt rp, .vNode b pb]) none =
        .ok (.built ⟨CA.typeSlotOfDefault rt, .nd (.existing a pa), .nd (.existing b pb),
          propsUpdate [] rp⟩)) ∧
    (∀ (dt : Option String) (a : Nat) (pa : Props) (T : String) (d : Props)
        (b : Nat) (pb : Props),
      CA.cast_relationship dt
          (.vTuple [.vNode a pa, .vTuple [.vStr T, .vDict d], .vNode b pb]) none =
        .ok (.built ⟨.ts T, .nd (.existing a pa), .nd (.existing b pb),
          propsUpdate [] d⟩)) ∧
    (∀ (dt : Option String) (a : Nat) (pa : Props) (T : String) (b : Nat) (pb : Props)
        (p : Props),
      CA.cast_relationship dt (.vTuple [.vNode a pa, .vStr T, .vNode b pb, .vDict p])
          none =
        .ok (.built ⟨.ts T, .nd (.existing a pa), .nd (.existing b pb),
          propsUpdate [] (propsUpdate [] p)⟩)) ∧
    (∀ (dt : Option String) (a : Nat) (pa : Props) (T : String) (d1 : Props)
        (b : Nat) (pb : Props) (d2 : Props),
      CA.cast_relationship dt
          (.vTuple [.vNode a pa, .vTuple [.vStr T, .vDict d1], .vNode b pb, .vDict d2])
          none =
        .ok (.built ⟨.ts T, .nd (.existing a pa), .nd (.existing b pb),
          propsUpdate [] (propsUpdate d1 d2)⟩)) ∧
    (∀ (d1 d2 : Props) (k : String) (v : PVal),
      (propsKeys d1).Nodup → (propsKeys d2).Nodup → propsGet d2 k = some v →
      propsGet (propsUpdate [] (propsUpdate d1 d2)) k = some v) ∧
    (∀ (d1 d2 : Props) (k : String),
      (propsKeys d1).Nodup → propsGet d2 k = none →
      propsGet (propsUpdate [] (propsUpdate d1 d2)) k = propsGet d1 k) := by
  refine ⟨fun dt a pa T b pb => rfl,
    fun dt a pa rt rp b pb => ?_,
    fun dt a pa T d b pb => rfl,
    fun dt a pa T b pb p => rfl,
    fun dt a pa T d1 b pb d2 => rfl,
    fun d1 d2 k v h1 h2 hk => ?_,
    fun d1 d2 k h1 hk => ?_⟩
  · cases rt <;> rfl
  · exact propsGet_update_nil _ k (nodup_propsUpdate d1 d2 h1) ▸
      propsGet_update_some d1 d2 k v h2 hk
  · rw [propsGet_update_nil _ k (nodup_propsUpdate d1 d2 h1),
      propsGet_update_none d1 d2 k hk]

/-- C9 witness: the spec's `KNOWS` examples, with the merge evaluated at
the conflicting key `since`. -/
theorem cast_relationship_tuples_witness :
    CA.cast_relationship none (.vTuple [.vNode 1 [], .vStr "KNOWS", .vNode 2 []]) none =
      .ok (.built ⟨.ts "KNOWS", .nd (.existing 1 []), .nd (.existing 2 []), []⟩) ∧
    propsGet (propsUpdate []
        (propsUpdate [("since", .pint 1999)] [("since", .pint 2020)])) "since" =
      some (.pint 2020) :=
  ⟨cast_relationship_tuples.1 none 1 [] "KNOWS" 2 [],
   cast_relationship_tuples.2.2.2.2.2.1 [("since", .pint 1999)] [("since", .pint 2020)]
     "since" (.pint 2020) (by decide) (by decide) (by decide)⟩

end Py2neo
